import Mathlib

/-!
Verification of the interactive supply-chain globe component
(`src/src/components/MetricCard.tsx`, second embedded document: the
`SupplyChainMap` canvas globe).

JavaScript numbers are modelled as real numbers; each definition mirrors the
corresponding source function.  The d3-geo library routines the component
calls (`geoOrthographic`/its `invert`, `geoInterpolate`) are not part of the
repository source, so they are modelled from the specification (section 4.1
and 4.3 of the spec); those definitions carry a `Modelled from the spec:`
doc comment.
-/

open Real Classical

noncomputable section

/-- Three-component real vector, modelling the JS triples
`[number, number, number]` used by the versor module. -/
@[ext]
structure Vec3 where
  x : ℝ
  y : ℝ
  z : ℝ

/-- Quaternion `[q0, q1, q2, q3]` as used by the versor module
(`w` is the scalar component `q[0]`). -/
@[ext]
structure Quat where
  w : ℝ
  x : ℝ
  y : ℝ
  z : ℝ

/-- Squared Euclidean norm of a 3-vector. -/
def vecNormSq (v : Vec3) : ℝ := v.x ^ 2 + v.y ^ 2 + v.z ^ 2

/-- Squared magnitude of a quaternion. -/
def quatNormSq (q : Quat) : ℝ := q.w ^ 2 + q.x ^ 2 + q.y ^ 2 + q.z ^ 2

/-- Geographic point: longitude and latitude in degrees, mirroring the
`[lng, lat]` pairs fed to the projection and to `versor.cartesian`. -/
@[ext]
structure GeoPoint where
  lng : ℝ
  lat : ℝ

/-- JS `Math.atan2(y, x)`, modelled as the complex argument of `x + y*I`
(both are the angle of the point `(x, y)` in `(-pi, pi]`, and both return
`0` at the origin). -/
def atan2 (y x : ℝ) : ℝ := Complex.arg ⟨x, y⟩

namespace versor

/-- Source `versor.cartesian` (MetricCard.tsx lines 230-235): converts a
`[longitude, latitude]` pair in degrees to a point on the unit sphere. -/
def cartesian (e : ℝ × ℝ) : Vec3 :=
  ⟨Real.cos (e.2 * π / 180) * Real.cos (e.1 * π / 180),
   Real.cos (e.2 * π / 180) * Real.sin (e.1 * π / 180),
   Real.sin (e.2 * π / 180)⟩

/-- Source `versor.dot` (lines 243-245). -/
def dot (v0 v1 : Vec3) : ℝ := v0.x * v1.x + v0.y * v1.y + v0.z * v1.z

/-- Source `versor.cross` (lines 246-252). -/
def cross (v0 v1 : Vec3) : Vec3 :=
  ⟨v0.y * v1.z - v0.z * v1.y,
   v0.z * v1.x - v0.x * v1.z,
   v0.x * v1.y - v0.y * v1.x⟩

/-- Source `versor.rotation` (lines 236-242): quaternion built from the
cross and dot products of the two vectors, with a separate branch for
negative dot products. -/
def rotation (v0 v1 : Vec3) : Quat :=
  if dot v0 v1 < 0 then
    ⟨Real.sqrt ((1 - dot v0 v1) / 2),
     (cross v0 v1).x / Real.sqrt (2 * (1 - dot v0 v1)),
     (cross v0 v1).y / Real.sqrt (2 * (1 - dot v0 v1)),
     (cross v0 v1).z / Real.sqrt (2 * (1 - dot v0 v1))⟩
  else
    ⟨Real.sqrt ((1 + dot v0 v1) / 2),
     (cross v0 v1).x / Real.sqrt (2 * (1 + dot v0 v1)),
     (cross v0 v1).y / Real.sqrt (2 * (1 + dot v0 v1)),
     (cross v0 v1).z / Real.sqrt (2 * (1 + dot v0 v1))⟩

/-- Source `versor.multiply` (lines 253-260): Hamilton product. -/
def multiply (q0 q1 : Quat) : Quat :=
  ⟨q0.w * q1.w - q0.x * q1.x - q0.y * q1.y - q0.z * q1.z,
   q0.w * q1.x + q0.x * q1.w + q0.y * q1.z - q0.z * q1.y,
   q0.w * q1.y - q0.x * q1.z + q0.y * q1.w + q0.z * q1.x,
   q0.w * q1.z + q0.x * q1.y - q0.y * q1.x + q0.z * q1.w⟩

/-- Source `versor.toEuler` (lines 261-267): quaternion to Euler angles in
degrees, with the asin argument clamped to `[-1, 1]`. -/
def toEuler (q : Quat) : ℝ × ℝ × ℝ :=
  (atan2 (2 * (q.w * q.x + q.y * q.z)) (1 - 2 * (q.x * q.x + q.y * q.y)) * 180 / π,
   Real.arcsin (max (-1) (min 1 (2 * (q.w * q.y - q.z * q.x)))) * 180 / π,
   atan2 (2 * (q.w * q.z + q.x * q.y)) (1 - 2 * (q.y * q.y + q.z * q.z)) * 180 / π)

end versor

/-- The identity quaternion `[1, 0, 0, 0]` set as `q0` on mouse-down
(line 533). -/
def qId : Quat := ⟨1, 0, 0, 0⟩

/-- Quaternion with zero scalar part wrapping a vector, used to state what
rotating a vector by a quaternion means. -/
def quatOfVec (v : Vec3) : Quat := ⟨0, v.x, v.y, v.z⟩

/-- Quaternion conjugate. -/
def conjQ (q : Quat) : Quat := ⟨q.w, -q.x, -q.y, -q.z⟩

/-- The rotation action of a quaternion on a vector: the vector part of
`q * (0, v) * conj q`, built from the source `versor.multiply`.  This is the
standard meaning of "rotating `v` by `q`" used by the specification. -/
def quatApply (q : Quat) (v : Vec3) : Vec3 :=
  ⟨(versor.multiply (versor.multiply q (quatOfVec v)) (conjQ q)).x,
   (versor.multiply (versor.multiply q (quatOfVec v)) (conjQ q)).y,
   (versor.multiply (versor.multiply q (quatOfVec v)) (conjQ q)).z⟩

/-- JS `Math.sqrt` instrumented for NaN: negative arguments produce NaN in
JS, modelled as `none`. -/
def jsSqrt (a : ℝ) : Option ℝ := if a < 0 then none else some (Real.sqrt a)

/-- JS division instrumented for NaN/Infinity: a zero divisor produces NaN
or an infinity in JS, modelled as `none`. -/
def jsDiv (a b : ℝ) : Option ℝ := if b = 0 then none else some (a / b)

/-- JS `Math.asin` instrumented for NaN: arguments outside `[-1, 1]`
produce NaN, modelled as `none`.  (`Math.atan2` never returns NaN for real
arguments, so it needs no instrumentation.) -/
def jsAsin (a : ℝ) : Option ℝ := if a < -1 ∨ 1 < a then none else some (Real.arcsin a)

/-- NaN-instrumented version of `versor.rotation`: every square root and
every division of the source expression goes through the instrumented
operations, so the result is `none` exactly when the JS original would
produce a NaN (or infinite) component. -/
def rotationChecked (v0 v1 : Vec3) : Option Quat :=
  if versor.dot v0 v1 < 0 then do
    let w ← jsSqrt ((1 - versor.dot v0 v1) / 2)
    let s ← jsSqrt (2 * (1 - versor.dot v0 v1))
    let qx ← jsDiv (versor.cross v0 v1).x s
    let qy ← jsDiv (versor.cross v0 v1).y s
    let qz ← jsDiv (versor.cross v0 v1).z s
    pure ⟨w, qx, qy, qz⟩
  else do
    let w ← jsSqrt ((1 + versor.dot v0 v1) / 2)
    let s ← jsSqrt (2 * (1 + versor.dot v0 v1))
    let qx ← jsDiv (versor.cross v0 v1).x s
    let qy ← jsDiv (versor.cross v0 v1).y s
    let qz ← jsDiv (versor.cross v0 v1).z s
    pure ⟨w, qx, qy, qz⟩

/-- NaN-instrumented version of `versor.toEuler`: the `asin` argument goes
through the instrumented `jsAsin` (the source clamps it to `[-1, 1]`
first), the `atan2` calls are total. -/
def toEulerChecked (q : Quat) : Option (ℝ × ℝ × ℝ) := do
  let a2 ← jsAsin (max (-1) (min 1 (2 * (q.w * q.y - q.z * q.x))))
  pure (atan2 (2 * (q.w * q.x + q.y * q.z)) (1 - 2 * (q.x * q.x + q.y * q.y)) * 180 / π,
        a2 * 180 / π,
        atan2 (2 * (q.w * q.z + q.x * q.y)) (1 - 2 * (q.y * q.y + q.z * q.z)) * 180 / π)

/-- The divisor used by the branch of `versor.rotation` selected for a given
dot product `d`. -/
def rotationDivisor (d : ℝ) : ℝ :=
  if d < 0 then Real.sqrt (2 * (1 - d)) else Real.sqrt (2 * (1 + d))

/-- Rotation state: the three Euler angles (in degrees) passed to
`projection.rotate` — the `rotation` React state of the component. -/
abbrev RotationState := ℝ × ℝ × ℝ

/-- Degrees to radians. -/
def deg2rad (d : ℝ) : ℝ := d * π / 180

/-- Radians to degrees. -/
def rad2deg (r : ℝ) : ℝ := r * 180 / π

/-- Modelled from the spec: yaw component of the projection's rotation —
rotation about the vertical (polar) axis, adding the yaw angle to the
longitude. -/
def applyYaw (t : ℝ) (v : Vec3) : Vec3 :=
  ⟨v.x * Real.cos t - v.y * Real.sin t, v.x * Real.sin t + v.y * Real.cos t, v.z⟩

/-- Modelled from the spec: pitch component of the projection's rotation —
rotation about the horizontal axis. -/
def applyPitch (t : ℝ) (v : Vec3) : Vec3 :=
  ⟨v.x * Real.cos t - v.z * Real.sin t, v.y, v.z * Real.cos t + v.x * Real.sin t⟩

/-- Modelled from the spec: roll component of the projection's rotation —
rotation about the viewing axis (the x-axis in this model: the viewer looks
down the positive x-axis, so the depth component of a rotated vector is its
x-coordinate). -/
def applyRoll (t : ℝ) (v : Vec3) : Vec3 :=
  ⟨v.x, v.y * Real.cos t - v.z * Real.sin t, v.z * Real.cos t + v.y * Real.sin t⟩

/-- Modelled from the spec (section 4.1): the rotation applied by the
orthographic projection for a rotation state — yaw about the vertical axis,
then pitch about the horizontal axis, then roll about the viewing axis, in
that fixed order (the d3 `rotate([yaw, pitch, roll])` convention). -/
def rotateVec (r : RotationState) (v : Vec3) : Vec3 :=
  applyRoll (deg2rad r.2.2) (applyPitch (deg2rad r.2.1) (applyYaw (deg2rad r.1) v))

/-- Modelled from the spec: inverse of `rotateVec` — the three inverse
rotations applied in the reverse order. -/
def unrotateVec (r : RotationState) (v : Vec3) : Vec3 :=
  applyYaw (-deg2rad r.1) (applyPitch (-deg2rad r.2.1) (applyRoll (-deg2rad r.2.2) v))

/-- Unit-sphere coordinates of a geographic point (via the source
`versor.cartesian`). -/
def geoCartesian (p : GeoPoint) : Vec3 := versor.cartesian (p.lng, p.lat)

/-- Modelled from the spec: unit-sphere vector back to geographic
coordinates, longitude by `atan2`, latitude by `asin`. -/
def vecToGeo (v : Vec3) : GeoPoint :=
  ⟨rad2deg (atan2 v.y v.x), rad2deg (Real.arcsin v.z)⟩

/-- Modelled from the spec (section 4.1): `project` — the d3
`geoOrthographic().scale(scale).translate(center).rotate(r).clipAngle(90)`
projection used at MetricCard.tsx lines 327-331.  Rotates the point's
unit-sphere coordinates, returns `none` (NotVisible) when the depth
component shows the point on the far hemisphere, otherwise projects
orthographically: screen x grows with the rotated y-component, screen y
grows downward with the rotated z-component. -/
def project (p : GeoPoint) (r : RotationState) (scale : ℝ) (center : ℝ × ℝ) :
    Option (ℝ × ℝ) :=
  if (rotateVec r (geoCartesian p)).x < 0 then none
  else some (center.1 + scale * (rotateVec r (geoCartesian p)).y,
             center.2 - scale * (rotateVec r (geoCartesian p)).z)

/-- Modelled from the spec (section 4.1): `invert` — the inverse orthographic
lookup used at MetricCard.tsx lines 519-522 and 551.  Returns `none` when the
screen point lies outside the sphere's silhouette, otherwise recovers the
front-hemisphere point and un-rotates it. -/
def invert (pos : ℝ × ℝ) (r : RotationState) (scale : ℝ) (center : ℝ × ℝ) :
    Option GeoPoint :=
  if 1 < ((pos.1 - center.1) / scale) ^ 2 + ((center.2 - pos.2) / scale) ^ 2 then none
  else some (vecToGeo (unrotateVec r
    ⟨Real.sqrt (1 - ((pos.1 - center.1) / scale) ^ 2 - ((center.2 - pos.2) / scale) ^ 2),
     (pos.1 - center.1) / scale,
     (center.2 - pos.2) / scale⟩))

/-- The initial rotation state (line 281):
`[-facilityLocation.lng, -facilityLocation.lat, 0]`. -/
def initialRotation (fac : GeoPoint) : RotationState := (-fac.lng, -fac.lat, 0)

/-- The transient drag anchor captured on mouse-down (lines 509-534):
`v0` the anchor vector, `r0` the reference rotation, `q0` the base
quaternion. -/
structure DragState where
  v0 : Vec3
  r0 : RotationState
  q0 : Quat

/-- The mutable state shared by the pointer handlers: the current rotation
and the drag anchor (`none` when not dragging). -/
structure MapState where
  rotation : RotationState
  drag : Option DragState

/-- Source `handleMouseDown` (lines 524-535): invert the pointer position
with the current rotation; on success capture the drag anchor, otherwise
leave the state unchanged. -/
def handleMouseDown (scale : ℝ) (center : ℝ × ℝ) (s : MapState) (pos : ℝ × ℝ) :
    MapState :=
  match invert pos s.rotation scale center with
  | some g => { s with drag := some ⟨geoCartesian g, s.rotation, qId⟩ }
  | none => s

/-- Source `handleMouseMove` (lines 537-564): while dragging, invert the new
pointer position against the reference rotation `r0` captured at drag start;
on failure skip the update; on success set the rotation to `r0` plus the
Euler angles of `multiply(q0, rotation(v0, v1))` componentwise. -/
def handleMouseMove (scale : ℝ) (center : ℝ × ℝ) (s : MapState) (pos : ℝ × ℝ) :
    MapState :=
  match s.drag with
  | none => s
  | some a =>
    match invert pos a.r0 scale center with
    | none => s
    | some g =>
      { s with rotation :=
          (a.r0.1 + (versor.toEuler (versor.multiply a.q0
              (versor.rotation a.v0 (geoCartesian g)))).1,
           a.r0.2.1 + (versor.toEuler (versor.multiply a.q0
              (versor.rotation a.v0 (geoCartesian g)))).2.1,
           a.r0.2.2 + (versor.toEuler (versor.multiply a.q0
              (versor.rotation a.v0 (geoCartesian g)))).2.2) }

/-- Source `handleMouseUp` (lines 566-570): discard the drag anchor. -/
def handleMouseUp (s : MapState) : MapState := { s with drag := none }

/-- Source `handleHover` (lines 584-607), over an abstract marker list with
its projection results: scan the markers in order and return the first one
whose projected position is strictly within 12 pixels of the pointer;
`none` when no marker qualifies. -/
def handleHover {α : Type} (proj : α → Option (ℝ × ℝ)) (x y : ℝ) :
    List α → Option α
  | [] => none
  | s :: rest =>
    match proj s with
    | some pos =>
      if Real.sqrt ((pos.1 - x) ^ 2 + (pos.2 - y) ^ 2) < 12 then some s
      else handleHover proj x y rest
    | none => handleHover proj x y rest

/-- A marker is a hit for the hover handler: it projects as visible and its
screen distance to the pointer is strictly below 12 pixels. -/
def Hits {α : Type} (proj : α → Option (ℝ × ℝ)) (x y : ℝ) (s : α) : Prop :=
  ∃ pos, proj s = some pos ∧ Real.sqrt ((pos.1 - x) ^ 2 + (pos.2 - y) ^ 2) < 12

/-- Concrete two-marker projection used to test the hover handler: marker 0
projects to `(9, 0)`, every other marker to `(3, 0)`. -/
def projPair (n : ℕ) : Option (ℝ × ℝ) := if n = 0 then some (9, 0) else some (3, 0)

/-- Modelled from the spec (section 4.3): the angular separation of the two
endpoints, as used by great-circle interpolation. -/
def arcAngle (a b : GeoPoint) : ℝ :=
  Real.arccos (versor.dot (geoCartesian a) (geoCartesian b))

/-- Modelled from the spec (section 4.3): d3's `geoInterpolate` — spherical
linear interpolation between two geographic points, with the degenerate
zero-separation case returning the source point. -/
def geoInterpolate (a b : GeoPoint) (t : ℝ) : GeoPoint :=
  if arcAngle a b = 0 then a
  else vecToGeo
    ⟨Real.sin ((1 - t) * arcAngle a b) / Real.sin (arcAngle a b) * (geoCartesian a).x
       + Real.sin (t * arcAngle a b) / Real.sin (arcAngle a b) * (geoCartesian b).x,
     Real.sin ((1 - t) * arcAngle a b) / Real.sin (arcAngle a b) * (geoCartesian a).y
       + Real.sin (t * arcAngle a b) / Real.sin (arcAngle a b) * (geoCartesian b).y,
     Real.sin ((1 - t) * arcAngle a b) / Real.sin (arcAngle a b) * (geoCartesian a).z
       + Real.sin (t * arcAngle a b) / Real.sin (arcAngle a b) * (geoCartesian b).z⟩

/-- The IEEE binary64 value of the source literal `0.02`: it rounds to
`5764607523034235 / 2^58`, which is strictly greater than `1/50`. -/
def float02 : ℝ := 5764607523034235 / 288230376151711744

/-- The interpolation parameters visited by the arc-sampling loop
`for (let t = 0; t <= 1; t += 0.02)` (lines 398-400) under the binary64
arithmetic the program runs on: the increment exceeds `1/50`, fifty
increments exceed `1` (`1 < 50 * float02`), so the loop body runs exactly
50 times, at parameters `0, c, ..., 49 * c` — the parameter `1` is never
visited.  The parameters are modelled as exact multiples of the binary64
constant; the per-step rounding of the running sum perturbs each iterate by
at most a few units in the last place and flips no loop comparison (the
binary64 loop also runs exactly 50 times, its accumulated value reaching
`0.9800000000000005` after 49 additions and exiting at
`1.0000000000000004 > 1` after 50). -/
def arcParams : List ℝ := (List.range 50).map (fun i : ℕ => (i : ℝ) * float02)

/-- The sampled route arc built in the render loop (lines 396-400): the
interpolant evaluated at each loop parameter. -/
def buildArc (a b : GeoPoint) : List GeoPoint := arcParams.map (geoInterpolate a b)

/-- Source particle update (lines 480-483): add the fixed increment `0.003`
and reset to `0` only when the result strictly exceeds `1`. -/
def advanceParticle (p : ℝ) : ℝ :=
  if 1 < p + 0.003 then 0 else p + 0.003

/-- `n`-fold iteration of the particle update (one application per render
tick). -/
def advanceIter : ℕ → ℝ → ℝ
  | 0, p => p
  | n + 1, p => advanceIter n (advanceParticle p)

/-- The quaternions handed to `versor.toEuler` across a drag sequence with
anchor vector `v0` and the successive target vectors of the pointer moves:
each move converts `multiply(q0, rotation(v0, v1))` with `q0 = [1,0,0,0]`
(lines 553-556). -/
def dragQuats (v0 : Vec3) (targets : List Vec3) : List Quat :=
  targets.map (fun v1 => versor.multiply qId (versor.rotation v0 v1))

/-- Concrete first counterexample vector: `(1, 0, 0)`. -/
def vA : Vec3 := ⟨1, 0, 0⟩

/-- Concrete second counterexample vector: `(-7/25, 24/25, 0)` — unit length
with negative dot product against `vA`. -/
def vB : Vec3 := ⟨-(7 / 25), 24 / 25, 0⟩

theorem sqrt_eq_of_sq (a b : ℝ) (hb : 0 ≤ b) (h : b ^ 2 = a) : Real.sqrt a = b := by
  rw [← h]
  exact Real.sqrt_sq hb

theorem cartesian_normSq (e : ℝ × ℝ) : vecNormSq (versor.cartesian e) = 1 := by
  simp only [versor.cartesian, vecNormSq]
  linear_combination (Real.cos (e.2 * π / 180)) ^ 2 * Real.sin_sq_add_cos_sq (e.1 * π / 180)
    + Real.sin_sq_add_cos_sq (e.2 * π / 180)

/-- C10: for every longitude/latitude pair in degrees, `versor.cartesian`
returns a vector of exactly unit Euclidean norm, so every anchor and target
vector fed to the quaternion construction is a unit vector without any
explicit normalization step. -/
theorem cartesian_unit_norm (e : ℝ × ℝ) : vecNormSq (versor.cartesian e) = 1 :=
  cartesian_normSq e

/-- C7 counterexample: a particle progress of `0.997` lies in `[0, 1)`, but a
single advance yields exactly `1`, which is not below `1`: the wrap
condition `newP > 1` is strict, so the value `1` itself is kept and the
claimed invariant `[0, 1)` fails. -/
theorem particle_overflow_counterexample :
    ((0 : ℝ) ≤ 997 / 1000 ∧ (997 / 1000 : ℝ) < 1)
    ∧ advanceParticle (997 / 1000) = 1 ∧ ¬ advanceParticle (997 / 1000) < 1 := by
  have h : advanceParticle (997 / 1000) = 1 := by
    unfold advanceParticle
    rw [if_neg (by norm_num)]
    norm_num
  exact ⟨⟨by norm_num, by norm_num⟩, h, by rw [h]; exact lt_irrefl 1⟩

theorem advanceParticle_mem (p : ℝ) (h0 : 0 ≤ p) (_h1 : p ≤ 1) :
    0 ≤ advanceParticle p ∧ advanceParticle p ≤ 1 := by
  unfold advanceParticle
  split_ifs with h
  · exact ⟨le_refl 0, by norm_num⟩
  · constructor <;> [linarith; linarith]

theorem advanceIter_mem (n : ℕ) :
    ∀ p : ℝ, 0 ≤ p → p ≤ 1 → 0 ≤ advanceIter n p ∧ advanceIter n p ≤ 1 := by
  induction n with
  | zero => exact fun p h0 h1 => ⟨h0, h1⟩
  | succ n ih =>
    intro p h0 h1
    have hstep := advanceParticle_mem p h0 h1
    exact ih (advanceParticle p) hstep.1 hstep.2

/-- C7 amended: for every particle whose progress starts in `[0, 1)`, after
any number of render-tick advances the progress stays in the closed interval
`[0, 1]`; it can momentarily equal exactly `1` because the wrap condition
`newP > 1` is strict. -/
theorem particle_progress_bounded (p : ℝ) (h0 : 0 ≤ p) (h1 : p < 1) (n : ℕ) :
    0 ≤ advanceIter n p ∧ advanceIter n p ≤ 1 :=
  advanceIter_mem n p h0 h1.le

theorem particle_progress_bounded_witness :
    0 ≤ advanceIter 3 (1 / 2) ∧ advanceIter 3 (1 / 2) ≤ 1 :=
  particle_progress_bounded (1 / 2) (by norm_num) (by norm_num) 3

/-- C8: for every pair of vectors the quaternion construction takes a branch
whose divisor is at least `sqrt 2` (hence bounded away from zero), the
NaN-instrumented construction returns the very quaternion computed by
`versor.rotation`, and the NaN-instrumented Euler conversion succeeds on it
— no NaN component is ever produced. -/
theorem rotation_no_nan (v0 v1 : Vec3) :
    rotationChecked v0 v1 = some (versor.rotation v0 v1)
    ∧ Real.sqrt 2 ≤ rotationDivisor (versor.dot v0 v1)
    ∧ toEulerChecked (versor.rotation v0 v1) = some (versor.toEuler (versor.rotation v0 v1)) := by
  refine ⟨?_, ?_, ?_⟩
  · by_cases hd : versor.dot v0 v1 < 0
    · have h1 : ¬ ((1 - versor.dot v0 v1) / 2 < 0) := by push_neg; linarith
      have h2 : ¬ (2 * (1 - versor.dot v0 v1) < 0) := by push_neg; linarith
      have h3 : Real.sqrt (2 * (1 - versor.dot v0 v1)) ≠ 0 :=
        ne_of_gt (Real.sqrt_pos.mpr (by linarith))
      have e1 : jsSqrt ((1 - versor.dot v0 v1) / 2)
          = some (Real.sqrt ((1 - versor.dot v0 v1) / 2)) := by
        simp only [jsSqrt]
        rw [if_neg h1]
      have e2 : jsSqrt (2 * (1 - versor.dot v0 v1))
          = some (Real.sqrt (2 * (1 - versor.dot v0 v1))) := by
        simp only [jsSqrt]
        rw [if_neg h2]
      have e3 : ∀ c : ℝ, jsDiv c (Real.sqrt (2 * (1 - versor.dot v0 v1)))
          = some (c / Real.sqrt (2 * (1 - versor.dot v0 v1))) := by
        intro c
        simp only [jsDiv]
        rw [if_neg h3]
      simp only [rotationChecked, if_pos hd, e1, e2, e3, Option.bind_eq_bind,
        Option.some_bind, Option.pure_def, versor.rotation]
    · have hd' : 0 ≤ versor.dot v0 v1 := not_lt.mp hd
      have h1 : ¬ ((1 + versor.dot v0 v1) / 2 < 0) := by push_neg; linarith
      have h2 : ¬ (2 * (1 + versor.dot v0 v1) < 0) := by push_neg; linarith
      have h3 : Real.sqrt (2 * (1 + versor.dot v0 v1)) ≠ 0 :=
        ne_of_gt (Real.sqrt_pos.mpr (by linarith))
      have e1 : jsSqrt ((1 + versor.dot v0 v1) / 2)
          = some (Real.sqrt ((1 + versor.dot v0 v1) / 2)) := by
        simp only [jsSqrt]
        rw [if_neg h1]
      have e2 : jsSqrt (2 * (1 + versor.dot v0 v1))
          = some (Real.sqrt (2 * (1 + versor.dot v0 v1))) := by
        simp only [jsSqrt]
        rw [if_neg h2]
      have e3 : ∀ c : ℝ, jsDiv c (Real.sqrt (2 * (1 + versor.dot v0 v1)))
          = some (c / Real.sqrt (2 * (1 + versor.dot v0 v1))) := by
        intro c
        simp only [jsDiv]
        rw [if_neg h3]
      simp only [rotationChecked, if_neg hd, e1, e2, e3, Option.bind_eq_bind,
        Option.some_bind, Option.pure_def, versor.rotation]
  · unfold rotationDivisor
    split_ifs with hd
    · exact Real.sqrt_le_sqrt (by linarith)
    · have hd' : 0 ≤ versor.dot v0 v1 := not_lt.mp hd
      exact Real.sqrt_le_sqrt (by linarith)
  · have hcl : ¬ (max (-1 : ℝ) (min 1 (2 * ((versor.rotation v0 v1).w * (versor.rotation v0 v1).y
        - (versor.rotation v0 v1).z * (versor.rotation v0 v1).x))) < -1
      ∨ 1 < max (-1 : ℝ) (min 1 (2 * ((versor.rotation v0 v1).w * (versor.rotation v0 v1).y
        - (versor.rotation v0 v1).z * (versor.rotation v0 v1).x)))) := by
      push_neg
      exact ⟨le_max_left _ _, max_le (by norm_num) (min_le_left _ _)⟩
    simp only [toEulerChecked, jsAsin]
    rw [if_neg hcl]
    rfl

theorem multiply_normSq (q0 q1 : Quat) :
    quatNormSq (versor.multiply q0 q1) = quatNormSq q0 * quatNormSq q1 := by
  simp only [quatNormSq, versor.multiply]
  ring

theorem cross_normSq_eq (a b : Vec3) (ha : vecNormSq a = 1) (hb : vecNormSq b = 1) :
    (versor.cross a b).x ^ 2 + (versor.cross a b).y ^ 2 + (versor.cross a b).z ^ 2
      = 1 - versor.dot a b ^ 2 := by
  simp only [vecNormSq] at ha hb
  simp only [versor.cross, versor.dot]
  linear_combination (b.x ^ 2 + b.y ^ 2 + b.z ^ 2) * ha + hb

theorem rotation_normSq (a b : Vec3) (ha : vecNormSq a = 1) (hb : vecNormSq b = 1) :
    quatNormSq (versor.rotation a b) = 1 := by
  have hc := cross_normSq_eq a b ha hb
  rcases lt_or_le (versor.dot a b) 0 with hd | hd
  · have h1 : (0 : ℝ) ≤ (1 - versor.dot a b) / 2 := by linarith
    have h2 : (0 : ℝ) < 2 * (1 - versor.dot a b) := by linarith
    have hsq : Real.sqrt ((1 - versor.dot a b) / 2) ^ 2 = (1 - versor.dot a b) / 2 :=
      Real.sq_sqrt h1
    have hsq2 : Real.sqrt (2 * (1 - versor.dot a b)) ^ 2 = 2 * (1 - versor.dot a b) :=
      Real.sq_sqrt h2.le
    have expand : quatNormSq (versor.rotation a b)
        = (1 - versor.dot a b) / 2
          + ((versor.cross a b).x ^ 2 + (versor.cross a b).y ^ 2 + (versor.cross a b).z ^ 2)
            / (2 * (1 - versor.dot a b)) := by
      simp only [quatNormSq, versor.rotation, if_pos hd]
      rw [div_pow, div_pow, div_pow, hsq, hsq2]
      ring
    rw [expand, hc]
    have hne : (1 : ℝ) - versor.dot a b ≠ 0 := by linarith
    field_simp
    ring
  · have h1 : (0 : ℝ) ≤ (1 + versor.dot a b) / 2 := by linarith
    have h2 : (0 : ℝ) < 2 * (1 + versor.dot a b) := by linarith
    have hsq : Real.sqrt ((1 + versor.dot a b) / 2) ^ 2 = (1 + versor.dot a b) / 2 :=
      Real.sq_sqrt h1
    have hsq2 : Real.sqrt (2 * (1 + versor.dot a b)) ^ 2 = 2 * (1 + versor.dot a b) :=
      Real.sq_sqrt h2.le
    have expand : quatNormSq (versor.rotation a b)
        = (1 + versor.dot a b) / 2
          + ((versor.cross a b).x ^ 2 + (versor.cross a b).y ^ 2 + (versor.cross a b).z ^ 2)
            / (2 * (1 + versor.dot a b)) := by
      simp only [quatNormSq, versor.rotation, if_neg (not_lt.mpr hd)]
      rw [div_pow, div_pow, div_pow, hsq, hsq2]
      ring
    rw [expand, hc]
    have hne : (1 : ℝ) + versor.dot a b ≠ 0 := by linarith
    field_simp
    ring

/-- C3: across a drag sequence of arbitrary length with a unit anchor vector
and unit target vectors, every quaternion handed to the Euler conversion —
the product `multiply(q0, rotation(v0, v1))` with `q0` the identity — has
squared magnitude exactly `1`, so its magnitude lies within `[1 - eps, 1 + eps]`
for every nonnegative `eps`. -/
theorem drag_quats_unit (v0 : Vec3) (ts : List Vec3) (h0 : vecNormSq v0 = 1)
    (hts : ∀ v ∈ ts, vecNormSq v = 1) :
    ∀ q ∈ dragQuats v0 ts, quatNormSq q = 1 := by
  intro q hq
  simp only [dragQuats, List.mem_map] at hq
  obtain ⟨v1, hv1, rfl⟩ := hq
  rw [multiply_normSq, rotation_normSq v0 v1 h0 (hts v1 hv1)]
  simp [quatNormSq, qId]

theorem quatApply_div (s t : ℝ) (ht : t ≠ 0) (u v : Vec3) :
    quatApply ⟨s / t, u.x / t, u.y / t, u.z / t⟩ v
      = ⟨(quatApply ⟨s, u.x, u.y, u.z⟩ v).x / t ^ 2,
         (quatApply ⟨s, u.x, u.y, u.z⟩ v).y / t ^ 2,
         (quatApply ⟨s, u.x, u.y, u.z⟩ v).z / t ^ 2⟩ := by
  simp only [quatApply, versor.multiply, quatOfVec, conjQ]
  ext <;> field_simp <;> ring

theorem quatApply_raw (a b : Vec3) (ha : vecNormSq a = 1) (hb : vecNormSq b = 1) :
    quatApply ⟨1 + versor.dot a b, (versor.cross a b).x, (versor.cross a b).y,
        (versor.cross a b).z⟩ a
      = ⟨2 * (1 + versor.dot a b) * b.x, 2 * (1 + versor.dot a b) * b.y,
         2 * (1 + versor.dot a b) * b.z⟩ := by
  simp only [vecNormSq] at ha hb
  simp only [quatApply, versor.multiply, quatOfVec, conjQ, versor.dot, versor.cross]
  ext
  · linear_combination (2 * (1 + (a.x * b.x + a.y * b.y + a.z * b.z)) * b.x
      - (b.x ^ 2 + b.y ^ 2 + b.z ^ 2) * a.x) * ha - a.x * hb
  · linear_combination (2 * (1 + (a.x * b.x + a.y * b.y + a.z * b.z)) * b.y
      - (b.x ^ 2 + b.y ^ 2 + b.z ^ 2) * a.y) * ha - a.y * hb
  · linear_combination (2 * (1 + (a.x * b.x + a.y * b.y + a.z * b.z)) * b.z
      - (b.x ^ 2 + b.y ^ 2 + b.z ^ 2) * a.z) * ha - a.z * hb

theorem rotation_apply_nonneg (a b : Vec3) (ha : vecNormSq a = 1) (hb : vecNormSq b = 1)
    (hd : 0 ≤ versor.dot a b) :
    quatApply (versor.rotation a b) a = b := by
  have hd1 : (0 : ℝ) < 1 + versor.dot a b := by linarith
  have hT2pos : (0 : ℝ) < 2 * (1 + versor.dot a b) := by linarith
  have hT : Real.sqrt (2 * (1 + versor.dot a b)) ≠ 0 :=
    ne_of_gt (Real.sqrt_pos.mpr hT2pos)
  have hTsq : Real.sqrt (2 * (1 + versor.dot a b)) ^ 2 = 2 * (1 + versor.dot a b) :=
    Real.sq_sqrt hT2pos.le
  have hW : Real.sqrt ((1 + versor.dot a b) / 2)
      = (1 + versor.dot a b) / Real.sqrt (2 * (1 + versor.dot a b)) := by
    rw [eq_div_iff hT, ← Real.sqrt_mul (by linarith : (0 : ℝ) ≤ (1 + versor.dot a b) / 2)]
    rw [show (1 + versor.dot a b) / 2 * (2 * (1 + versor.dot a b))
        = (1 + versor.dot a b) ^ 2 by ring]
    exact Real.sqrt_sq hd1.le
  have hrot : versor.rotation a b
      = ⟨(1 + versor.dot a b) / Real.sqrt (2 * (1 + versor.dot a b)),
         (versor.cross a b).x / Real.sqrt (2 * (1 + versor.dot a b)),
         (versor.cross a b).y / Real.sqrt (2 * (1 + versor.dot a b)),
         (versor.cross a b).z / Real.sqrt (2 * (1 + versor.dot a b))⟩ := by
    simp only [versor.rotation, if_neg (not_lt.mpr hd), hW]
  rw [hrot, quatApply_div _ _ hT, quatApply_raw a b ha hb]
  ext <;> rw [hTsq] <;> exact mul_div_cancel_left₀ _ (ne_of_gt hT2pos)

/-- C2 counterexample: `vA = (1,0,0)` and `vB = (-7/25, 24/25, 0)` are unit
vectors with negative dot product, yet rotating `vA` by
`versor.rotation vA vB` does not yield `vB` (it yields `(7/25, 24/25, 0)`):
the negative-dot branch rotates about the cross axis by the supplementary
angle, so the returned quaternion is not the minimal rotation mapping the
first vector to the second. -/
theorem rotation_negative_dot_counterexample :
    vecNormSq vA = 1 ∧ vecNormSq vB = 1 ∧ versor.dot vA vB < 0
    ∧ quatApply (versor.rotation vA vB) vA ≠ vB := by
  have hd : versor.dot vA vB = -(7 / 25) := by norm_num [versor.dot, vA, vB]
  have hdlt : versor.dot vA vB < 0 := by rw [hd]; norm_num
  have h1 : Real.sqrt ((1 - versor.dot vA vB) / 2) = 4 / 5 := by
    rw [hd]
    exact sqrt_eq_of_sq _ _ (by norm_num) (by norm_num)
  have h2 : Real.sqrt (2 * (1 - versor.dot vA vB)) = 8 / 5 := by
    rw [hd]
    exact sqrt_eq_of_sq _ _ (by norm_num) (by norm_num)
  have hq : versor.rotation vA vB = ⟨4 / 5, 0, 0, 3 / 5⟩ := by
    simp only [versor.rotation, if_pos hdlt, h1, h2]
    ext <;> norm_num [versor.cross, vA, vB]
  have happ : quatApply ⟨4 / 5, 0, 0, 3 / 5⟩ vA = ⟨7 / 25, 24 / 25, 0⟩ := by
    ext <;> norm_num [quatApply, versor.multiply, quatOfVec, conjQ, vA]
  refine ⟨by norm_num [vecNormSq, vA], by norm_num [vecNormSq, vB], hdlt, ?_⟩
  rw [hq, happ]
  intro hcon
  have hx := congrArg Vec3.x hcon
  norm_num [vB] at hx

/-- C2 amended: for every pair of unit vectors with nonnegative dot product,
`versor.rotation` returns the minimal rotation quaternion mapping the first
to the second: its scalar part is the half-angle term built from the dot
product, its vector part is a positive multiple of the cross product, and
rotating the first vector by it yields the second.  (For negative dot
products the construction switches to `(1 - d)` terms and no longer maps
the first vector to the second — see the counterexample.) -/
theorem rotation_maps_nonneg_dot (a b : Vec3) (ha : vecNormSq a = 1) (hb : vecNormSq b = 1)
    (hd : 0 ≤ versor.dot a b) :
    (versor.rotation a b).w = Real.sqrt ((1 + versor.dot a b) / 2)
    ∧ (∃ k : ℝ, 0 < k
        ∧ (versor.rotation a b).x = k * (versor.cross a b).x
        ∧ (versor.rotation a b).y = k * (versor.cross a b).y
        ∧ (versor.rotation a b).z = k * (versor.cross a b).z)
    ∧ quatApply (versor.rotation a b) a = b := by
  have hT2pos : (0 : ℝ) < 2 * (1 + versor.dot a b) := by linarith
  refine ⟨?_, ⟨(Real.sqrt (2 * (1 + versor.dot a b)))⁻¹,
    inv_pos.mpr (Real.sqrt_pos.mpr hT2pos), ?_, ?_, ?_⟩,
    rotation_apply_nonneg a b ha hb hd⟩
  all_goals simp only [versor.rotation, if_neg (not_lt.mpr hd)]
  · exact div_eq_inv_mul _ _
  · exact div_eq_inv_mul _ _
  · exact div_eq_inv_mul _ _

theorem rotation_maps_nonneg_dot_witness :
    quatApply (versor.rotation vA ⟨3 / 5, 4 / 5, 0⟩) vA = ⟨3 / 5, 4 / 5, 0⟩ :=
  (rotation_maps_nonneg_dot vA ⟨3 / 5, 4 / 5, 0⟩ (by norm_num [vecNormSq, vA])
    (by norm_num [vecNormSq]) (by norm_num [versor.dot, vA])).2.2

theorem drag_quats_unit_witness :
    quatNormSq (versor.multiply qId (versor.rotation vA ⟨0, 0, 1⟩)) = 1 :=
  drag_quats_unit vA [⟨0, 0, 1⟩] (by norm_num [vecNormSq, vA])
    (by
      intro v hv
      simp only [List.mem_singleton] at hv
      subst hv
      norm_num [vecNormSq])
    _ (by simp [dragQuats])

theorem handleHover_some_hits {α : Type} (proj : α → Option (ℝ × ℝ)) (x y : ℝ) :
    ∀ l : List α, ∀ m, handleHover proj x y l = some m → Hits proj x y m := by
  intro l
  induction l with
  | nil => intro m h; simp [handleHover] at h
  | cons s rest ih =>
    intro m h
    rcases hp : proj s with _ | pos
    · simp only [handleHover, hp] at h
      exact ih m h
    · simp only [handleHover, hp] at h
      by_cases hdist : Real.sqrt ((pos.1 - x) ^ 2 + (pos.2 - y) ^ 2) < 12
      · rw [if_pos hdist] at h
        obtain rfl : s = m := Option.some.inj h
        exact ⟨pos, hp, hdist⟩
      · rw [if_neg hdist] at h
        exact ih m h

theorem handleHover_none_iff {α : Type} (proj : α → Option (ℝ × ℝ)) (x y : ℝ) :
    ∀ l : List α, (handleHover proj x y l = none ↔ ∀ s ∈ l, ¬ Hits proj x y s) := by
  intro l
  induction l with
  | nil => simp [handleHover]
  | cons s rest ih =>
    rcases hp : proj s with _ | pos
    · simp only [handleHover, hp, List.mem_cons]
      constructor
      · intro h t ht
        rcases ht with rfl | ht
        · rintro ⟨pos, hpos, _⟩
          rw [hp] at hpos
          exact Option.noConfusion hpos
        · exact (ih.mp h) t ht
      · intro h
        exact ih.mpr fun t ht => h t (Or.inr ht)
    · simp only [handleHover, hp, List.mem_cons]
      by_cases hdist : Real.sqrt ((pos.1 - x) ^ 2 + (pos.2 - y) ^ 2) < 12
      · rw [if_pos hdist]
        constructor
        · intro h
          exact Option.noConfusion h
        · intro h
          exact absurd ⟨pos, hp, hdist⟩ (h s (Or.inl rfl))
      · rw [if_neg hdist]
        constructor
        · intro h t ht
          rcases ht with rfl | ht
          · rintro ⟨pos2, hpos2, hd2⟩
            rw [hp] at hpos2
            obtain rfl : pos = pos2 := Option.some.inj hpos2
            exact hdist hd2
          · exact (ih.mp h) t ht
        · intro h
          exact ih.mpr fun t ht => h t (Or.inr ht)

theorem handleHover_first {α : Type} (proj : α → Option (ℝ × ℝ)) (x y : ℝ) :
    ∀ l1 : List α, ∀ m, ∀ l2 : List α, Hits proj x y m →
      (∀ s ∈ l1, ¬ Hits proj x y s) →
      handleHover proj x y (l1 ++ m :: l2) = some m := by
  intro l1
  induction l1 with
  | nil =>
    intro m l2 hm _
    obtain ⟨pos, hp, hdist⟩ := hm
    simp only [List.nil_append, handleHover, hp]
    rw [if_pos hdist]
  | cons s rest ih =>
    intro m l2 hm hpre
    have hs : ¬ Hits proj x y s := hpre s (List.mem_cons_self s rest)
    rcases hp : proj s with _ | pos
    · simp only [List.cons_append, handleHover, hp]
      exact ih m l2 hm fun t ht => hpre t (List.mem_cons_of_mem s ht)
    · have hdist : ¬ Real.sqrt ((pos.1 - x) ^ 2 + (pos.2 - y) ^ 2) < 12 := by
        intro hd
        exact hs ⟨pos, hp, hd⟩
      simp only [List.cons_append, handleHover, hp]
      rw [if_neg hdist]
      exact ih m l2 hm fun t ht => hpre t (List.mem_cons_of_mem s ht)

/-- C4 counterexample: with the pointer at the origin, marker `0` projected
to `(9, 0)` (distance 9) and marker `1` projected to `(3, 0)` (distance 3,
also within the threshold), the handler emits marker `0` — the first match
in dataset order — even though marker `1` is strictly closer: the handler
does not select the minimum-distance marker. -/
theorem hover_min_distance_counterexample :
    handleHover projPair 0 0 [0, 1] = some 0
    ∧ projPair 1 = some (3, 0)
    ∧ Real.sqrt (((3 : ℝ) - 0) ^ 2 + ((0 : ℝ) - 0) ^ 2)
        < Real.sqrt (((9 : ℝ) - 0) ^ 2 + ((0 : ℝ) - 0) ^ 2)
    ∧ Real.sqrt (((3 : ℝ) - 0) ^ 2 + ((0 : ℝ) - 0) ^ 2) < 12 := by
  have h9 : Real.sqrt (((9 : ℝ) - 0) ^ 2 + ((0 : ℝ) - 0) ^ 2) = 9 := by
    rw [show ((9 : ℝ) - 0) ^ 2 + ((0 : ℝ) - 0) ^ 2 = 81 by norm_num]
    exact sqrt_eq_of_sq _ _ (by norm_num) (by norm_num)
  have h3 : Real.sqrt (((3 : ℝ) - 0) ^ 2 + ((0 : ℝ) - 0) ^ 2) = 3 := by
    rw [show ((3 : ℝ) - 0) ^ 2 + ((0 : ℝ) - 0) ^ 2 = 9 by norm_num]
    exact sqrt_eq_of_sq _ _ (by norm_num) (by norm_num)
  have hpp0 : projPair 0 = some (9, 0) := by simp [projPair]
  refine ⟨?_, by simp [projPair], by rw [h3, h9]; norm_num, by rw [h3]; norm_num⟩
  exact handleHover_first projPair 0 0 [] 0 [1]
    ⟨(9, 0), hpp0, by
      show Real.sqrt (((9 : ℝ) - 0) ^ 2 + ((0 : ℝ) - 0) ^ 2) < 12
      rw [h9]
      norm_num⟩
    (by intro s hs; exact absurd hs (List.not_mem_nil s))

/-- C4 amended: the hover controller scans the markers in dataset order and
emits the first marker whose projected position lies strictly within 12
pixels of the pointer; it emits null exactly when no visibly projected
marker is strictly within 12 pixels.  In particular a marker at exactly
12.0 px is a miss (the threshold is exclusive), and whenever exactly one
marker lies strictly within the threshold that marker is emitted. -/
theorem hover_first_match {α : Type} (proj : α → Option (ℝ × ℝ)) (x y : ℝ) (l : List α) :
    (∀ m, handleHover proj x y l = some m → Hits proj x y m)
    ∧ (handleHover proj x y l = none ↔ ∀ s ∈ l, ¬ Hits proj x y s)
    ∧ (∀ l1 m l2, l = l1 ++ m :: l2 → Hits proj x y m →
        (∀ s ∈ l1, ¬ Hits proj x y s) → handleHover proj x y l = some m) :=
  ⟨handleHover_some_hits proj x y l,
   handleHover_none_iff proj x y l,
   fun l1 m l2 hl hm hpre => hl ▸ handleHover_first proj x y l1 m l2 hm hpre⟩

theorem hover_first_match_witness :
    handleHover projPair 0 0 [(2 : ℕ), 1] = some 2 :=
  (hover_first_match projPair 0 0 [2, 1]).2.2 [] 2 [1] rfl
    ⟨(3, 0), by simp [projPair], by
      show Real.sqrt (((3 : ℝ) - 0) ^ 2 + ((0 : ℝ) - 0) ^ 2) < 12
      rw [show ((3 : ℝ) - 0) ^ 2 + ((0 : ℝ) - 0) ^ 2 = 9 by norm_num,
        sqrt_eq_of_sq 9 3 (by norm_num) (by norm_num)]
      norm_num⟩
    (by intro s hs; exact absurd hs (List.not_mem_nil s))

theorem applyYaw_normSq (t : ℝ) (v : Vec3) : vecNormSq (applyYaw t v) = vecNormSq v := by
  simp only [vecNormSq, applyYaw]
  linear_combination (v.x ^ 2 + v.y ^ 2) * Real.sin_sq_add_cos_sq t

theorem applyPitch_normSq (t : ℝ) (v : Vec3) : vecNormSq (applyPitch t v) = vecNormSq v := by
  simp only [vecNormSq, applyPitch]
  linear_combination (v.x ^ 2 + v.z ^ 2) * Real.sin_sq_add_cos_sq t

theorem applyRoll_normSq (t : ℝ) (v : Vec3) : vecNormSq (applyRoll t v) = vecNormSq v := by
  simp only [vecNormSq, applyRoll]
  linear_combination (v.y ^ 2 + v.z ^ 2) * Real.sin_sq_add_cos_sq t

theorem rotateVec_normSq (r : RotationState) (v : Vec3) :
    vecNormSq (rotateVec r v) = vecNormSq v := by
  simp only [rotateVec, applyRoll_normSq, applyPitch_normSq, applyYaw_normSq]

theorem applyYaw_neg_cancel (t : ℝ) (v : Vec3) : applyYaw (-t) (applyYaw t v) = v := by
  simp only [applyYaw, Real.cos_neg, Real.sin_neg]
  ext
  · linear_combination v.x * Real.sin_sq_add_cos_sq t
  · linear_combination v.y * Real.sin_sq_add_cos_sq t
  · rfl

theorem applyPitch_neg_cancel (t : ℝ) (v : Vec3) : applyPitch (-t) (applyPitch t v) = v := by
  simp only [applyPitch, Real.cos_neg, Real.sin_neg]
  ext
  · linear_combination v.x * Real.sin_sq_add_cos_sq t
  · rfl
  · linear_combination v.z * Real.sin_sq_add_cos_sq t

theorem applyRoll_neg_cancel (t : ℝ) (v : Vec3) : applyRoll (-t) (applyRoll t v) = v := by
  simp only [applyRoll, Real.cos_neg, Real.sin_neg]
  ext
  · rfl
  · linear_combination v.y * Real.sin_sq_add_cos_sq t
  · linear_combination v.z * Real.sin_sq_add_cos_sq t

theorem unrotateVec_rotateVec (r : RotationState) (v : Vec3) :
    unrotateVec r (rotateVec r v) = v := by
  simp only [rotateVec, unrotateVec, applyRoll_neg_cancel, applyPitch_neg_cancel,
    applyYaw_neg_cancel]

theorem geoCartesian_vecToGeo (v : Vec3) (hv : vecNormSq v = 1) :
    geoCartesian (vecToGeo v) = v := by
  simp only [vecNormSq] at hv
  have hd2r : ∀ θ : ℝ, rad2deg θ * π / 180 = θ := by
    intro θ
    unfold rad2deg
    field_simp
  have hzle : -1 ≤ v.z ∧ v.z ≤ 1 :=
    ⟨by nlinarith [sq_nonneg v.x, sq_nonneg v.y], by nlinarith [sq_nonneg v.x, sq_nonneg v.y]⟩
  have hsin : Real.sin (Real.arcsin v.z) = v.z := Real.sin_arcsin hzle.1 hzle.2
  have hcos : Real.cos (Real.arcsin v.z) = Real.sqrt (1 - v.z ^ 2) := Real.cos_arcsin v.z
  have hsq : 1 - v.z ^ 2 = v.x ^ 2 + v.y ^ 2 := by linarith
  simp only [geoCartesian, vecToGeo, versor.cartesian, hd2r]
  by_cases hxy : (⟨v.x, v.y⟩ : ℂ) = 0
  · have hx0 : v.x = 0 := congrArg Complex.re hxy
    have hy0 : v.y = 0 := congrArg Complex.im hxy
    ext
    · rw [hcos, hsq, hx0, hy0]
      simp
    · rw [hcos, hsq, hx0, hy0]
      simp
    · exact hsin
  · have habs : Complex.abs ⟨v.x, v.y⟩ = Real.sqrt (v.x ^ 2 + v.y ^ 2) := by
      rw [Complex.abs_apply, Complex.normSq_mk]
      congr 1
      ring
    have hcosarg : Real.cos (atan2 v.y v.x) = v.x / Real.sqrt (v.x ^ 2 + v.y ^ 2) := by
      unfold atan2
      rw [Complex.cos_arg hxy, habs]
    have hsinarg : Real.sin (atan2 v.y v.x) = v.y / Real.sqrt (v.x ^ 2 + v.y ^ 2) := by
      unfold atan2
      rw [Complex.sin_arg, habs]
    have hsqrtpos : 0 < Real.sqrt (v.x ^ 2 + v.y ^ 2) := by
      rw [← habs]
      exact Complex.abs.pos hxy
    ext
    · rw [hcos, hsq, hcosarg]
      field_simp
    · rw [hcos, hsq, hsinarg]
      field_simp
    · exact hsin

theorem vecToGeo_geoCartesian (p : GeoPoint) (h1 : -180 < p.lng) (h2 : p.lng ≤ 180)
    (h3 : -90 < p.lat) (h4 : p.lat < 90) :
    vecToGeo (geoCartesian p) = p := by
  have hπ := Real.pi_pos
  have hlam1 : -π < p.lng * π / 180 := by nlinarith
  have hlam2 : p.lng * π / 180 ≤ π := by nlinarith
  have hphi1 : -(π / 2) < p.lat * π / 180 := by nlinarith
  have hphi2 : p.lat * π / 180 < π / 2 := by nlinarith
  have hcosphi : 0 < Real.cos (p.lat * π / 180) :=
    Real.cos_pos_of_mem_Ioo ⟨by linarith, hphi2⟩
  have hc : (⟨Real.cos (p.lat * π / 180) * Real.cos (p.lng * π / 180),
        Real.cos (p.lat * π / 180) * Real.sin (p.lng * π / 180)⟩ : ℂ)
      = (Real.cos (p.lat * π / 180) : ℂ)
        * ((Real.cos (p.lng * π / 180) : ℂ) + (Real.sin (p.lng * π / 180) : ℂ) * Complex.I) := by
    apply Complex.ext <;>
      simp only [Complex.mul_re, Complex.mul_im, Complex.add_re, Complex.add_im,
        Complex.ofReal_re, Complex.ofReal_im, Complex.I_re, Complex.I_im] <;>
      ring
  have harg : atan2 (Real.cos (p.lat * π / 180) * Real.sin (p.lng * π / 180))
      (Real.cos (p.lat * π / 180) * Real.cos (p.lng * π / 180)) = p.lng * π / 180 := by
    unfold atan2
    rw [hc, Complex.arg_real_mul _ hcosphi, Complex.ofReal_cos, Complex.ofReal_sin,
      Complex.arg_cos_add_sin_mul_I ⟨hlam1, hlam2⟩]
  have hasin : Real.arcsin (Real.sin (p.lat * π / 180)) = p.lat * π / 180 :=
    Real.arcsin_sin (by linarith) (by linarith)
  simp only [vecToGeo, geoCartesian, versor.cartesian]
  ext
  · rw [harg]
    unfold rad2deg
    field_simp
  · rw [hasin]
    unfold rad2deg
    field_simp

theorem applyRoll_zero (v : Vec3) : applyRoll 0 v = v := by
  simp only [applyRoll, Real.cos_zero, Real.sin_zero]
  ext <;> ring

theorem rotate_center (lng lat : ℝ) :
    applyPitch (-(lat * π / 180)) (applyYaw (-(lng * π / 180))
      (versor.cartesian (lng, lat))) = ⟨1, 0, 0⟩ := by
  simp only [versor.cartesian, applyYaw, applyPitch, Real.cos_neg, Real.sin_neg]
  ext
  · linear_combination (Real.cos (lat * π / 180)) ^ 2 * Real.sin_sq_add_cos_sq (lng * π / 180)
      + Real.sin_sq_add_cos_sq (lat * π / 180)
  · ring
  · linear_combination (-(Real.sin (lat * π / 180) * Real.cos (lat * π / 180)))
      * Real.sin_sq_add_cos_sq (lng * π / 180)

/-- C9: the rotation state created at mount is
`[-facilityLongitude, -facilityLatitude, 0]`, and under it the facility
coordinate projects exactly to the screen center `(width/2, height/2)`, for
every scale. -/
theorem initial_rotation_centers_facility (fac : GeoPoint) (scale w h : ℝ) :
    project fac (initialRotation fac) scale (w / 2, h / 2) = some (w / 2, h / 2) := by
  have key : rotateVec (initialRotation fac) (geoCartesian fac) = ⟨1, 0, 0⟩ := by
    simp only [rotateVec, initialRotation, deg2rad, geoCartesian]
    rw [show -fac.lng * π / 180 = -(fac.lng * π / 180) by ring,
      show -fac.lat * π / 180 = -(fac.lat * π / 180) by ring,
      show (0 : ℝ) * π / 180 = 0 by ring,
      rotate_center fac.lng fac.lat, applyRoll_zero]
  simp only [project, key]
  rw [if_neg (by norm_num : ¬ (1 : ℝ) < 0)]
  norm_num

theorem invert_of_visible (r : RotationState) (scale cx cy : ℝ) (hs : 0 < scale)
    (v : Vec3) (hvn : vecNormSq v = 1) (hx : 0 ≤ v.x) :
    invert (cx + scale * v.y, cy - scale * v.z) r scale (cx, cy)
      = some (vecToGeo (unrotateVec r v)) := by
  simp only [vecNormSq] at hvn
  simp only [invert]
  have hy : (cx + scale * v.y - cx) / scale = v.y := by
    rw [show cx + scale * v.y - cx = scale * v.y by ring]
    exact mul_div_cancel_left₀ _ (ne_of_gt hs)
  have hz : (cy - (cy - scale * v.z)) / scale = v.z := by
    rw [show cy - (cy - scale * v.z) = scale * v.z by ring]
    exact mul_div_cancel_left₀ _ (ne_of_gt hs)
  rw [hy, hz]
  have hyz : ¬ (1 < v.y ^ 2 + v.z ^ 2) := by
    push_neg
    nlinarith [sq_nonneg v.x]
  rw [if_neg hyz]
  have hxx : Real.sqrt (1 - v.y ^ 2 - v.z ^ 2) = v.x := by
    rw [show 1 - v.y ^ 2 - v.z ^ 2 = v.x ^ 2 by linarith]
    exact Real.sqrt_sq hx
  rw [hxx]

/-- C1: for every geographic point, rotation state and positive scale — the
projection modelled from the spec — if the point's angular distance from
the view center is below 90 degrees (positive depth component) then
projecting and inverting recovers the original point: the recovered point is
exactly the same point of the sphere, and when the coordinates are canonical
(longitude in `(-180, 180]`, latitude strictly inside `(-90, 90)`) the
recovered coordinates are exactly the original ones; and every point of the
far hemisphere (negative depth) projects to NotVisible — `project` is total
and never throws. -/
theorem projection_round_trip (p : GeoPoint) (r : RotationState) (scale cx cy : ℝ)
    (hs : 0 < scale) :
    (0 < (rotateVec r (geoCartesian p)).x →
      ∃ s q, project p r scale (cx, cy) = some s ∧ invert s r scale (cx, cy) = some q
        ∧ geoCartesian q = geoCartesian p
        ∧ (-180 < p.lng → p.lng ≤ 180 → -90 < p.lat → p.lat < 90 → q = p))
    ∧ ((rotateVec r (geoCartesian p)).x < 0 → project p r scale (cx, cy) = none) := by
  constructor
  · intro hx
    have hvn : vecNormSq (rotateVec r (geoCartesian p)) = 1 := by
      rw [rotateVec_normSq]
      exact cartesian_normSq _
    refine ⟨(cx + scale * (rotateVec r (geoCartesian p)).y,
             cy - scale * (rotateVec r (geoCartesian p)).z),
            vecToGeo (geoCartesian p), ?_, ?_, ?_, ?_⟩
    · simp only [project]
      rw [if_neg (not_lt.mpr hx.le)]
    · rw [invert_of_visible r scale cx cy hs _ hvn hx.le, unrotateVec_rotateVec]
    · exact geoCartesian_vecToGeo _ (cartesian_normSq _)
    · intro h1 h2 h3 h4
      exact vecToGeo_geoCartesian p h1 h2 h3 h4
  · intro hx
    simp only [project]
    rw [if_pos hx]

theorem projection_round_trip_witness :
    (0 < (rotateVec (0, 0, 0) (geoCartesian ⟨0, 0⟩)).x →
      ∃ s q, project ⟨0, 0⟩ (0, 0, 0) 2 (0, 0) = some s
        ∧ invert s (0, 0, 0) 2 (0, 0) = some q
        ∧ geoCartesian q = geoCartesian ⟨0, 0⟩
        ∧ (-180 < (⟨0, 0⟩ : GeoPoint).lng → (⟨0, 0⟩ : GeoPoint).lng ≤ 180
            → -90 < (⟨0, 0⟩ : GeoPoint).lat → (⟨0, 0⟩ : GeoPoint).lat < 90 → q = ⟨0, 0⟩))
    ∧ ((rotateVec (0, 0, 0) (geoCartesian ⟨0, 0⟩)).x < 0
        → project ⟨0, 0⟩ (0, 0, 0) 2 (0, 0) = none) :=
  projection_round_trip ⟨0, 0⟩ (0, 0, 0) 2 0 0 (by norm_num)

/-- C5: while dragging, each pointer-move inverts the new screen position
against the reference rotation `r0` captured at drag start; if the inversion
fails the state is left unchanged (the controller remains dragging); on
success the drag anchor is kept and the new rotation equals the reference
rotation plus, componentwise, the Euler angles of the quaternion derived
from the anchor and target vectors; and the outcome never depends on the
live, already-updated rotation. -/
theorem mouseMove_uses_reference_rotation (scale : ℝ) (center : ℝ × ℝ) (s : MapState)
    (a : DragState) (pos : ℝ × ℝ) (hdrag : s.drag = some a) :
    (invert pos a.r0 scale center = none → handleMouseMove scale center s pos = s)
    ∧ (∀ g, invert pos a.r0 scale center = some g →
        (handleMouseMove scale center s pos).drag = some a
        ∧ (handleMouseMove scale center s pos).rotation
            = (a.r0.1 + (versor.toEuler (versor.multiply a.q0
                  (versor.rotation a.v0 (geoCartesian g)))).1,
               a.r0.2.1 + (versor.toEuler (versor.multiply a.q0
                  (versor.rotation a.v0 (geoCartesian g)))).2.1,
               a.r0.2.2 + (versor.toEuler (versor.multiply a.q0
                  (versor.rotation a.v0 (geoCartesian g)))).2.2))
    ∧ (∀ rot2 g, invert pos a.r0 scale center = some g →
        (handleMouseMove scale center { rotation := rot2, drag := some a } pos).rotation
          = (handleMouseMove scale center s pos).rotation) := by
  refine ⟨?_, ?_, ?_⟩
  · intro hnone
    simp only [handleMouseMove, hdrag, hnone]
  · intro g hg
    simp only [handleMouseMove, hdrag, hg]
    exact ⟨trivial, trivial⟩
  · intro rot2 g hg
    simp only [handleMouseMove, hdrag, hg]

theorem mouseMove_uses_reference_rotation_witness :
    (invert (0, 0) (0, 0, 0) 1 (0, 0) = none →
      handleMouseMove 1 (0, 0)
        ⟨(0, 0, 0), some ⟨vA, (0, 0, 0), qId⟩⟩ (0, 0)
        = ⟨(0, 0, 0), some ⟨vA, (0, 0, 0), qId⟩⟩)
    ∧ (∀ g, invert (0, 0) (0, 0, 0) 1 (0, 0) = some g →
        (handleMouseMove 1 (0, 0)
            ⟨(0, 0, 0), some ⟨vA, (0, 0, 0), qId⟩⟩ (0, 0)).drag
          = some ⟨vA, (0, 0, 0), qId⟩
        ∧ (handleMouseMove 1 (0, 0)
            ⟨(0, 0, 0), some ⟨vA, (0, 0, 0), qId⟩⟩ (0, 0)).rotation
            = ((0 : ℝ) + (versor.toEuler (versor.multiply qId
                  (versor.rotation vA (geoCartesian g)))).1,
               (0 : ℝ) + (versor.toEuler (versor.multiply qId
                  (versor.rotation vA (geoCartesian g)))).2.1,
               (0 : ℝ) + (versor.toEuler (versor.multiply qId
                  (versor.rotation vA (geoCartesian g)))).2.2))
    ∧ (∀ rot2 g, invert (0, 0) (0, 0, 0) 1 (0, 0) = some g →
        (handleMouseMove 1 (0, 0)
            { rotation := rot2, drag := some ⟨vA, (0, 0, 0), qId⟩ } (0, 0)).rotation
          = (handleMouseMove 1 (0, 0)
              ⟨(0, 0, 0), some ⟨vA, (0, 0, 0), qId⟩⟩ (0, 0)).rotation) :=
  mouseMove_uses_reference_rotation 1 (0, 0)
    ⟨(0, 0, 0), some ⟨vA, (0, 0, 0), qId⟩⟩ ⟨vA, (0, 0, 0), qId⟩ (0, 0) rfl

theorem dot_le_one (a b : Vec3) (ha : vecNormSq a = 1) (hb : vecNormSq b = 1) :
    -1 ≤ versor.dot a b ∧ versor.dot a b ≤ 1 := by
  simp only [vecNormSq] at ha hb
  simp only [versor.dot]
  constructor
  · nlinarith [sq_nonneg (a.x + b.x), sq_nonneg (a.y + b.y), sq_nonneg (a.z + b.z)]
  · nlinarith [sq_nonneg (a.x - b.x), sq_nonneg (a.y - b.y), sq_nonneg (a.z - b.z)]

theorem eq_of_dot_eq_one (a b : Vec3) (ha : vecNormSq a = 1) (hb : vecNormSq b = 1)
    (hd : versor.dot a b = 1) : a = b := by
  simp only [vecNormSq] at ha hb
  simp only [versor.dot] at hd
  have hsum : (a.x - b.x) ^ 2 + (a.y - b.y) ^ 2 + (a.z - b.z) ^ 2 = 0 := by
    linear_combination ha + hb - 2 * hd
  have hx : a.x - b.x = 0 := by
    have h2 : (a.x - b.x) ^ 2 = 0 := by
      nlinarith [sq_nonneg (a.x - b.x), sq_nonneg (a.y - b.y), sq_nonneg (a.z - b.z)]
    exact pow_eq_zero_iff two_ne_zero |>.mp h2
  have hy : a.y - b.y = 0 := by
    have h2 : (a.y - b.y) ^ 2 = 0 := by
      nlinarith [sq_nonneg (a.x - b.x), sq_nonneg (a.y - b.y), sq_nonneg (a.z - b.z)]
    exact pow_eq_zero_iff two_ne_zero |>.mp h2
  have hz : a.z - b.z = 0 := by
    have h2 : (a.z - b.z) ^ 2 = 0 := by
      nlinarith [sq_nonneg (a.x - b.x), sq_nonneg (a.y - b.y), sq_nonneg (a.z - b.z)]
    exact pow_eq_zero_iff two_ne_zero |>.mp h2
  ext
  · linarith
  · linarith
  · linarith

theorem geoCartesian_normSq (p : GeoPoint) : vecNormSq (geoCartesian p) = 1 :=
  cartesian_normSq _

theorem sin_arcAngle_pos (a b : GeoPoint) (hne : arcAngle a b ≠ 0)
    (hab : versor.dot (geoCartesian a) (geoCartesian b) ≠ -1) :
    0 < Real.sin (arcAngle a b) := by
  have hd := dot_le_one (geoCartesian a) (geoCartesian b) (geoCartesian_normSq a)
    (geoCartesian_normSq b)
  apply Real.sin_pos_of_pos_of_lt_pi
  · exact lt_of_le_of_ne (Real.arccos_nonneg _) (Ne.symm hne)
  · apply lt_of_le_of_ne (Real.arccos_le_pi _)
    intro hpi
    have := Real.arccos_eq_pi.mp hpi
    exact hab (le_antisymm this hd.1)

theorem geoInterpolate_zero (a b : GeoPoint)
    (hab : versor.dot (geoCartesian a) (geoCartesian b) ≠ -1) :
    geoCartesian (geoInterpolate a b 0) = geoCartesian a := by
  unfold geoInterpolate
  split_ifs with h
  · rfl
  · have hsin : Real.sin (arcAngle a b) ≠ 0 := ne_of_gt (sin_arcAngle_pos a b h hab)
    have hvec : (⟨Real.sin ((1 - (0 : ℝ)) * arcAngle a b) / Real.sin (arcAngle a b)
          * (geoCartesian a).x
        + Real.sin ((0 : ℝ) * arcAngle a b) / Real.sin (arcAngle a b) * (geoCartesian b).x,
        Real.sin ((1 - (0 : ℝ)) * arcAngle a b) / Real.sin (arcAngle a b) * (geoCartesian a).y
        + Real.sin ((0 : ℝ) * arcAngle a b) / Real.sin (arcAngle a b) * (geoCartesian b).y,
        Real.sin ((1 - (0 : ℝ)) * arcAngle a b) / Real.sin (arcAngle a b) * (geoCartesian a).z
        + Real.sin ((0 : ℝ) * arcAngle a b) / Real.sin (arcAngle a b) * (geoCartesian b).z⟩
          : Vec3) = geoCartesian a := by
      rw [show (1 - (0 : ℝ)) * arcAngle a b = arcAngle a b by ring,
        show (0 : ℝ) * arcAngle a b = 0 by ring, Real.sin_zero]
      ext <;> field_simp
    rw [hvec]
    exact geoCartesian_vecToGeo _ (geoCartesian_normSq a)

theorem geoInterpolate_one (a b : GeoPoint)
    (hab : versor.dot (geoCartesian a) (geoCartesian b) ≠ -1) :
    geoCartesian (geoInterpolate a b 1) = geoCartesian b := by
  unfold geoInterpolate
  split_ifs with h
  · have hd := dot_le_one (geoCartesian a) (geoCartesian b) (geoCartesian_normSq a)
      (geoCartesian_normSq b)
    have h1 : (1 : ℝ) ≤ versor.dot (geoCartesian a) (geoCartesian b) :=
      Real.arccos_eq_zero.mp h
    have heq : geoCartesian a = geoCartesian b :=
      eq_of_dot_eq_one _ _ (geoCartesian_normSq a) (geoCartesian_normSq b)
        (le_antisymm hd.2 h1)
    rw [heq]
  · have hsin : Real.sin (arcAngle a b) ≠ 0 := ne_of_gt (sin_arcAngle_pos a b h hab)
    have hvec : (⟨Real.sin ((1 - (1 : ℝ)) * arcAngle a b) / Real.sin (arcAngle a b)
          * (geoCartesian a).x
        + Real.sin ((1 : ℝ) * arcAngle a b) / Real.sin (arcAngle a b) * (geoCartesian b).x,
        Real.sin ((1 - (1 : ℝ)) * arcAngle a b) / Real.sin (arcAngle a b) * (geoCartesian a).y
        + Real.sin ((1 : ℝ) * arcAngle a b) / Real.sin (arcAngle a b) * (geoCartesian b).y,
        Real.sin ((1 - (1 : ℝ)) * arcAngle a b) / Real.sin (arcAngle a b) * (geoCartesian a).z
        + Real.sin ((1 : ℝ) * arcAngle a b) / Real.sin (arcAngle a b) * (geoCartesian b).z⟩
          : Vec3) = geoCartesian b := by
      rw [show (1 - (1 : ℝ)) * arcAngle a b = 0 by ring,
        show (1 : ℝ) * arcAngle a b = arcAngle a b by ring, Real.sin_zero]
      ext <;> field_simp
    rw [hvec]
    exact geoCartesian_vecToGeo _ (geoCartesian_normSq b)

theorem geoInterpolate_self (a : GeoPoint) (t : ℝ) : geoInterpolate a a t = a := by
  have hdot : versor.dot (geoCartesian a) (geoCartesian a) = 1 := by
    have h := geoCartesian_normSq a
    simp only [vecNormSq] at h
    simp only [versor.dot]
    linear_combination h
  unfold geoInterpolate
  rw [if_pos]
  unfold arcAngle
  rw [hdot, Real.arccos_one]

/-- C6 (code bug): the sampling loop `for (t = 0; t <= 1; t += 0.02)` stops
one sample short of the claimed arc.  Under binary64 the increment is
strictly greater than `1/50` and fifty increments exceed `1`, so the arc
consists of only 50 points, at monotonically increasing parameters that all
lie strictly below `1`: the first element is the `t = 0` interpolant (the
source point) but the parameter `1` is never sampled, so the last element
is not the target point — against the claimed 51-point arc ending at the
target.  The degenerate equal-endpoint case still yields copies of the
source with no NaN. -/
theorem buildArc_loop_stops_short (a b : GeoPoint) :
    (buildArc a b).length = 50
    ∧ (1 : ℝ) < 50 * float02
    ∧ List.Pairwise (· < ·) arcParams
    ∧ (∀ t ∈ arcParams, 0 ≤ t ∧ t < 1)
    ∧ (buildArc a b).head? = some (geoInterpolate a b 0)
    ∧ (a = b → ∀ q ∈ buildArc a b, q = a) := by
  refine ⟨?_, ?_, ?_, ?_, ?_, ?_⟩
  · simp [buildArc, arcParams]
  · norm_num [float02]
  · unfold arcParams
    rw [List.pairwise_map]
    apply List.Pairwise.imp ?_ (List.pairwise_lt_range 50)
    intro i j hij
    have h1 : (i : ℝ) < (j : ℝ) := Nat.cast_lt.mpr hij
    have h2 : (0 : ℝ) < float02 := by norm_num [float02]
    exact mul_lt_mul_of_pos_right h1 h2
  · intro t ht
    simp only [arcParams, List.mem_map, List.mem_range] at ht
    obtain ⟨i, hi, rfl⟩ := ht
    have hle : (i : ℝ) ≤ 49 := by exact_mod_cast Nat.lt_succ_iff.mp hi
    have h2 : (0 : ℝ) < float02 := by norm_num [float02]
    constructor
    · exact mul_nonneg (Nat.cast_nonneg i) h2.le
    · have hmul : (i : ℝ) * float02 ≤ 49 * float02 :=
        mul_le_mul_of_nonneg_right hle h2.le
      have h49 : (49 : ℝ) * float02 < 1 := by norm_num [float02]
      linarith
  · unfold buildArc arcParams
    rw [List.range_succ_eq_map]
    simp only [List.map_cons, List.head?_cons]
    norm_num
  · intro hab2 q hq
    subst hab2
    simp only [buildArc, List.mem_map] at hq
    obtain ⟨t, _, rfl⟩ := hq
    exact geoInterpolate_self a t

end
